import Mathlib

/-!
Shallow embedding of `src/backend/resource.rs` from the grafana-plugin-sdk-rust
repository: conversion between the wire protocol's resource-call messages and
the internal HTTP request/response types, plus the streaming adapter that turns
a handler's (initial response, chunk stream) pair into one outbound stream.

Wire strings are modelled as Lean `String`s; request/response bodies as lists
of byte values.  The header grammar checks mirror the external `http` crate's
`HeaderName`/`HeaderValue`/`Method` validation at the character level.
-/

namespace GrafanaResource

/-- Request and response bodies: raw byte sequences (`Vec<u8>` in the source). -/
abbrev Bytes := List Nat

/-- Wire representation of a list of header values
(`pluginv2::StringList { values: Vec<String> }`). -/
structure StringList where
  values : List String
deriving DecidableEq, Repr

/-- The cause carried by `ConversionError::InvalidRequest`: which field of the
inbound wire message violated its grammar.  In the source this is a boxed
`std::error::Error` produced by the `http` crate; the model records the
offending field and its raw text. -/
inductive RequestErrorSource where
  | headerName (name : String)
  | headerValue (value : String)
  | method (m : String)
  | uri (u : String)
deriving DecidableEq, Repr

/-- `backend::ConversionError`.  The enum itself is declared in the backend
module outside the analyzed sources; its variants follow the spec's error
taxonomy (`InvalidRequest` with an underlying cause, `InvalidResponse`,
plugin-context conversion failure), which is exactly how `resource.rs`
constructs and propagates it. -/
inductive ConversionError where
  | invalidRequest (source : RequestErrorSource)
  | invalidResponse
  | pluginContextError
deriving DecidableEq, Repr

/-! ### Header, method and URI grammar (external `http` crate)

`HeaderName::from_str` accepts nonempty strings of RFC 7230 token characters
(digits, letters, and `! # $ % & ' * + - . ^ _ \x60 | ~`), normalising ASCII
uppercase to lowercase.  `HeaderValue::from_str` accepts strings whose bytes
are all tab (9) or in 32..=255 except DEL (127); since every byte of a
multi-byte UTF-8 character is at least 128, this is equivalent to the
character-level check below.  `HeaderValue::to_str` succeeds only when every
byte is visible ASCII (tab, or 32..=126).  `Method::from_str` accepts nonempty
token strings unchanged. -/

/-- Is `b` an RFC 7230 token character code (the `http` crate's valid set for
header names and methods)? -/
def isTokenByte (b : Nat) : Bool :=
  (48 ≤ b && b ≤ 57) || (65 ≤ b && b ≤ 90) || (97 ≤ b && b ≤ 122) ||
  b == 33 || b == 35 || b == 36 || b == 37 || b == 38 || b == 39 || b == 42 ||
  b == 43 || b == 45 || b == 46 || b == 94 || b == 95 || b == 96 ||
  b == 124 || b == 126

/-- Is `c` a character allowed in a header value by `HeaderValue::from_str`
(tab, or any character other than DEL whose code point is at least 32)? -/
def isValueChar (c : Char) : Bool :=
  c.val == 9 || (32 ≤ c.val && c.val != 127)

/-- Is `c` visible ASCII (or tab), the condition `HeaderValue::to_str`
requires of every byte? -/
def isVisibleAsciiChar (c : Char) : Bool :=
  c.val == 9 || (32 ≤ c.val && c.val ≤ 126)

/-- `k.parse::<HeaderName>()`: validate every character against the token
grammar and lowercase the result; `none` models the parse error. -/
def parseHeaderName (s : String) : Option String :=
  if s.data ≠ [] && s.data.all (fun c => isTokenByte c.val.toNat) then
    some (String.mk (s.data.map Char.toLower))
  else none

/-- `v.parse::<HeaderValue>()` succeeds exactly when this holds; the stored
value is the string unchanged. -/
def isValueString (v : String) : Bool :=
  v.data.all isValueChar

/-- `HeaderValue::to_str`: succeeds (returning the value unchanged) iff every
character is visible ASCII or tab. -/
def headerValueToStr (v : String) : Option String :=
  if v.data.all isVisibleAsciiChar then some v else none

/-- `method.as_str().parse::<Method>()`: nonempty token string, kept as-is. -/
def parseMethod (s : String) : Option String :=
  if s.data ≠ [] && s.data.all (fun c => isTokenByte c.val.toNat) then some s
  else none

/-- Validity of the URL string, modelling the external `http` crate's `Uri`
parser at the level the claims depend on: the parser is fallible, rejecting
the empty string and any string containing whitespace, control characters or
DEL.  (The real parser additionally enforces RFC 3986 structure; none of the
claims distinguish inputs at that finer grain.) -/
def parseUri (s : String) : Option String :=
  if s.data ≠ [] && s.data.all (fun c => 32 < c.val && c.val != 127) then some s
  else none

/-! ### The internal header multimap (`http::HeaderMap`) -/

/-- The internal multi-value header container: an insertion-ordered map from
(lowercased) header name to its list of values in insertion order.  Models
`http::HeaderMap<HeaderValue>`, whose iteration groups all values of one name
together. -/
abbrev HeaderMap := List (String × List String)

/-- `HeaderMap::append`: add `val` at the end of `name`'s value list,
inserting the name at the end if absent. -/
def HeaderMap.append (m : HeaderMap) (name val : String) : HeaderMap :=
  match m with
  | [] => [(name, [val])]
  | (k, vs) :: rest =>
    if k = name then (k, vs ++ [val]) :: rest
    else (k, vs) :: HeaderMap.append rest name val

/-! ### Wire and internal request types -/

/-- `pluginv2::CallResourceRequest`.  The wire header map is a
`HashMap<String, StringList>`; the model fixes one iteration order by using an
association list. `PC` is the wire plugin-context type (a sub-message this
module never inspects). -/
structure WireRequest (PC : Type) where
  plugin_context : Option PC
  method : String
  url : String
  headers : List (String × List String)
  body : Bytes
deriving DecidableEq, Repr

/-- `backend::CallResourceRequest`: the converted request handed to the
handler, with the `http::Request` fields inlined.  `IC` is the internal
plugin-context type. -/
structure CallResourceRequest (IC : Type) where
  plugin_context : Option IC
  method : String
  uri : String
  headers : HeaderMap
  body : Bytes
deriving DecidableEq, Repr

/-- The inner value loop of the header decode: parse each value of one named
entry and `append` it to the accumulated map, failing fast with
`InvalidRequest` on the first invalid value. -/
def appendValues (m : HeaderMap) (name : String) :
    List String → Except ConversionError HeaderMap
  | [] => .ok m
  | v :: rest =>
    if isValueString v then appendValues (m.append name v) name rest
    else .error (.invalidRequest (.headerValue v))

/-- The header loop of `TryFrom<pluginv2::CallResourceRequest>`: for each wire
entry validate the name, then append each of its values; the first grammar
violation aborts the whole decode. -/
def decodeHeadersFrom (m : HeaderMap) :
    List (String × List String) → Except ConversionError HeaderMap
  | [] => .ok m
  | (k, vs) :: rest =>
    match parseHeaderName k with
    | none => .error (.invalidRequest (.headerName k))
    | some name =>
      match appendValues m name vs with
      | .error e => .error e
      | .ok m2 => decodeHeadersFrom m2 rest

/-- Decode a wire header map into the internal multimap, starting from the
empty `http::HeaderMap` of a fresh request builder. -/
def decodeHeaders (hs : List (String × List String)) :
    Except ConversionError HeaderMap :=
  decodeHeadersFrom [] hs

/-- `TryFrom<pluginv2::CallResourceRequest> for CallResourceRequest`, in the
source's evaluation order: headers first, then the optional plugin context
(via the fallible external conversion `ctxConv`), then the request builder's
method and URI validation. -/
def tryFromRequest {PC IC : Type} (ctxConv : PC → Except ConversionError IC)
    (r : WireRequest PC) : Except ConversionError (CallResourceRequest IC) :=
  match decodeHeaders r.headers with
  | .error e => .error e
  | .ok hm =>
    match (match r.plugin_context with
           | none => (Except.ok none : Except ConversionError (Option IC))
           | some c => (ctxConv c).map some) with
    | .error e => .error e
    | .ok pc =>
      match parseMethod r.method with
      | none => .error (.invalidRequest (.method r.method))
      | some m =>
        match parseUri r.url with
        | none => .error (.invalidRequest (.uri r.url))
        | some u => .ok ⟨pc, m, u, hm, r.body⟩

/-! ### Internal and wire response types -/

/-- `http::Response<Vec<u8>>` with the fields the conversion uses inlined:
status code (the `http::StatusCode` invariant keeps it in 100..=999), header
multimap and body. -/
structure HttpResponse where
  status : Nat
  headers : HeaderMap
  body : Bytes
deriving DecidableEq, Repr

/-- `pluginv2::CallResourceResponse`: wire status code (a signed wire integer,
filled by widening the `u16` status), headers as a map from name to
`StringList`, and the body bytes. -/
structure CallResourceResponse where
  code : Int
  headers : List (String × StringList)
  body : Bytes
deriving DecidableEq, Repr

/-- `other.headers_mut().drain()`: yield every value of the map; the first
value of each name is paired with `Some(name)`, the remaining values of that
same name follow immediately with `None` (the `http` crate's documented drain
shape). -/
def drainHeaders (m : HeaderMap) : List (Option String × String) :=
  m.flatMap (fun kv =>
    match kv.2 with
    | [] => []
    | v :: rest => (some kv.1, v) :: rest.map (fun v2 => (none, v2)))

/-- `itertools::group_by(|x| x.0.clone())`: group consecutive drained items
with equal (optional) name keys, keeping value order. -/
def groupPairsBy : List (Option String × String) → List (Option String × List String)
  | [] => []
  | (k, v) :: rest =>
    match groupPairsBy rest with
    | [] => [(k, [v])]
    | (k2, vs) :: gs =>
      if k = k2 then (k, v :: vs) :: gs else (k, [v]) :: (k2, vs) :: gs

/-- The inner `values.map(|v| v.1.to_str() ...).collect::<Result<_, _>>()`:
convert each value of one group to wire text, failing fast with
`InvalidResponse` on the first non-visible-ASCII value. -/
def valuesToStr : List String → Except ConversionError (List String)
  | [] => .ok []
  | v :: rest =>
    match headerValueToStr v with
    | none => .error .invalidResponse
    | some s => (valuesToStr rest).map (fun ss => s :: ss)

/-- Convert one drained group to a wire header entry, in the source's order:
the optional name is unwrapped first (`ok_or(ConversionError::InvalidResponse)`),
then the values are converted. -/
def encodeEntry (k : Option String) (vs : List String) :
    Except ConversionError (String × StringList) :=
  match k with
  | none => .error .invalidResponse
  | some name =>
    match valuesToStr vs with
    | .error e => .error e
    | .ok ss => .ok (name, ⟨ss⟩)

/-- The outer `collect::<Result<_, _>>()` over the groups: first failure wins. -/
def encodeGroups : List (Option String × List String) →
    Except ConversionError (List (String × StringList))
  | [] => .ok []
  | (k, vs) :: rest =>
    match encodeEntry k vs with
    | .error e => .error e
    | .ok entry => (encodeGroups rest).map (fun es => entry :: es)

/-- The header-encoding part of
`TryFrom<Response<Vec<u8>>> for pluginv2::CallResourceResponse`:
drain the internal multimap, group consecutive items by optional name, and
convert each group. -/
def encodeHeaders (m : HeaderMap) :
    Except ConversionError (List (String × StringList)) :=
  encodeGroups (groupPairsBy (drainHeaders m))

/-- `TryFrom<Response<Vec<u8>>> for pluginv2::CallResourceResponse`: encode
the headers, widen the status code (`as_u16().into()`, a lossless `u16` to
wire-integer widening) and move the body. -/
def tryFromResponse (r : HttpResponse) : Except ConversionError CallResourceResponse :=
  match encodeHeaders r.headers with
  | .error e => .error e
  | .ok hs => .ok ⟨(r.status : Int), hs, r.body⟩

/-- `body_to_response`: wrap a raw chunk into a minimal wire message with
status 200, no headers, and the chunk as body. -/
def body_to_response (body : Bytes) : CallResourceResponse :=
  ⟨200, [], body⟩

/-! ### The streaming adapter (`pluginv2::resource_server::Resource::call_resource`) -/

/-- `tonic::Status` as this module uses it: `Status::internal(message)`.
Handler errors are modelled by their `to_string()` description, the only thing
the adapter ever reads from them. -/
inductive Status where
  | internal (message : String)
deriving DecidableEq, Repr

/-- Human-readable description of a conversion error (`e.to_string()` of the
`thiserror`-derived `Display`, declared outside the analyzed sources; the
claims depend only on a message being derived from the error). -/
def ConversionError.describe : ConversionError → String
  | .invalidRequest (.headerName n) => "invalid request: invalid header name " ++ n
  | .invalidRequest (.headerValue v) => "invalid request: invalid header value " ++ v
  | .invalidRequest (.method m) => "invalid request: invalid method " ++ m
  | .invalidRequest (.uri u) => "invalid request: invalid uri " ++ u
  | .invalidResponse => "invalid response"
  | .pluginContextError => "plugin context error"

/-- Modelled from the spec: `ConversionError::into_tonic_status` is declared
in the backend module outside the analyzed sources; per the spec every
conversion failure becomes a transport-level error status carrying a
human-readable message derived from the failure's description. -/
def ConversionError.into_tonic_status (e : ConversionError) : Status :=
  .internal e.describe

/-- The adapter's handling of the handler's initial `Result`:
`map_err(|e| Status::internal(e.to_string())).and_then(|response|
CallResourceResponse::try_from(response).map_err(|e| Status::internal(e.to_string())))`. -/
def convertInitialResponse (initial : Except String HttpResponse) :
    Except Status CallResourceResponse :=
  match initial with
  | .error e => .error (.internal e)
  | .ok resp =>
    match tryFromResponse resp with
    | .error ce => .error (.internal ce.describe)
    | .ok w => .ok w

/-- The adapter's per-chunk mapping:
`response.map(body_to_response).map_err(|e| Status::internal(e.to_string()))`. -/
def convertChunk (c : Except String Bytes) : Except Status CallResourceResponse :=
  match c with
  | .error e => .error (.internal e)
  | .ok b => .ok (body_to_response b)

/-- The outbound stream the adapter constructs:
`stream::once(ready(initial_response_converted)).chain(stream.map(...))`.
The handler's lazy chunk stream is modelled by the list of elements it would
yield; laziness is captured by `observeStream` below and by prefix-invariance
theorems. -/
def callResourceStream (initial : Except String HttpResponse)
    (chunks : List (Except String Bytes)) : List (Except Status CallResourceResponse) :=
  convertInitialResponse initial :: chunks.map convertChunk

/-- Modelled from the spec: the transport pulls the outbound stream lazily,
element by element, and a yielded `Err(Status)` terminates the call, so no
further element is ever pulled (fail-fast; spec sections 4.5 and 7).  Returns
the elements actually delivered to the caller. -/
def observeStream : List (Except Status CallResourceResponse) →
    List (Except Status CallResourceResponse)
  | [] => []
  | .ok x :: rest => .ok x :: observeStream rest
  | .error s :: _ => [.error s]

/-- The RPC entry point `Resource::call_resource`: convert the inbound wire
message (rejecting the call with a bare status on failure, before any stream
exists), dispatch the handler, and build the outbound stream.  The handler is
modelled as a function from the converted request to its
(initial result, chunk list) pair. -/
def call_resource {PC IC : Type} (ctxConv : PC → Except ConversionError IC)
    (handler : CallResourceRequest IC → Except String HttpResponse × List (Except String Bytes))
    (req : WireRequest PC) :
    Except Status (List (Except Status CallResourceResponse)) :=
  match tryFromRequest ctxConv req with
  | .error ce => .error ce.into_tonic_status
  | .ok r =>
    let hr := handler r
    .ok (callResourceStream hr.1 hr.2)

/-! ### Helper lemmas -/

theorem map_convertChunk_ok (bs : List Bytes) :
    (bs.map Except.ok).map convertChunk = bs.map (fun b => Except.ok (body_to_response b)) := by
  induction bs with
  | nil => rfl
  | cons b bs ih => simp [convertChunk, ih]

theorem observeStream_cons_ok (x : CallResourceResponse)
    (t : List (Except Status CallResourceResponse)) :
    observeStream (Except.ok x :: t) = Except.ok x :: observeStream t := rfl

theorem observeStream_cons_error (s : Status)
    (t : List (Except Status CallResourceResponse)) :
    observeStream (Except.error s :: t) = [Except.error s] := rfl

theorem observeStream_wrapped_append (bs : List Bytes)
    (l : List (Except Status CallResourceResponse)) :
    observeStream (bs.map (fun b => Except.ok (body_to_response b)) ++ l)
      = bs.map (fun b => Except.ok (body_to_response b)) ++ observeStream l := by
  induction bs with
  | nil => rfl
  | cons b bs ih => simp only [List.map_cons, List.cons_append, observeStream_cons_ok, ih]

theorem observeStream_wrapped (bs : List Bytes) :
    observeStream (bs.map (fun b => Except.ok (body_to_response b)))
      = bs.map (fun b => Except.ok (body_to_response b)) := by
  have h := observeStream_wrapped_append bs []
  simpa [observeStream] using h

theorem appendValues_ok_all {m : HeaderMap} {name : String} {vs : List String}
    {m2 : HeaderMap} (h : appendValues m name vs = Except.ok m2) :
    ∀ v ∈ vs, isValueString v = true := by
  induction vs generalizing m with
  | nil => simp
  | cons v rest ih =>
    unfold appendValues at h
    by_cases hv : isValueString v
    · rw [if_pos hv] at h
      intro x hx
      rcases List.mem_cons.mp hx with h1 | h1
      · rw [h1]; exact hv
      · exact ih h x h1
    · rw [if_neg hv] at h
      exact absurd h (by simp)

theorem appendValues_error_shape {m : HeaderMap} {name : String}
    {vs : List String} {ce : ConversionError}
    (h : appendValues m name vs = Except.error ce) :
    ∃ v ∈ vs, isValueString v = false ∧
      ce = ConversionError.invalidRequest (.headerValue v) := by
  induction vs generalizing m with
  | nil => exact absurd h (by simp [appendValues])
  | cons v rest ih =>
    unfold appendValues at h
    by_cases hv : isValueString v
    · rw [if_pos hv] at h
      obtain ⟨x, hx, hfalse, hce⟩ := ih h
      exact ⟨x, List.mem_cons_of_mem _ hx, hfalse, hce⟩
    · rw [if_neg hv] at h
      cases h
      exact ⟨v, List.mem_cons_self _ _, by simpa using hv, rfl⟩

theorem appendValues_ok_of_all (name : String) {vs : List String}
    (hall : ∀ v ∈ vs, isValueString v = true) (m : HeaderMap) :
    ∃ m2, appendValues m name vs = Except.ok m2 := by
  induction vs generalizing m with
  | nil => exact ⟨m, rfl⟩
  | cons v rest ih =>
    have hv : isValueString v = true := hall v (List.mem_cons_self _ _)
    have hrest : ∀ x ∈ rest, isValueString x = true :=
      fun x hx => hall x (List.mem_cons_of_mem _ hx)
    obtain ⟨m2, hm2⟩ := ih hrest (m.append name v)
    refine ⟨m2, ?_⟩
    unfold appendValues
    rw [if_pos hv]
    exact hm2

theorem decodeHeadersFrom_ok_all {m : HeaderMap}
    {hs : List (String × List String)} {m2 : HeaderMap}
    (h : decodeHeadersFrom m hs = Except.ok m2) :
    ∀ kv ∈ hs, (parseHeaderName kv.1).isSome = true ∧
      ∀ v ∈ kv.2, isValueString v = true := by
  induction hs generalizing m with
  | nil => simp
  | cons kv rest ih =>
    obtain ⟨k, vs⟩ := kv
    unfold decodeHeadersFrom at h
    cases hk : parseHeaderName k with
    | none =>
      simp only [hk] at h
      exact absurd h (by simp)
    | some name =>
      simp only [hk] at h
      cases ha : appendValues m name vs with
      | error e =>
        simp only [ha] at h
        exact absurd h (by simp)
      | ok m3 =>
        simp only [ha] at h
        intro kv2 hkv2
        rcases List.mem_cons.mp hkv2 with h1 | h1
        · rw [h1]
          exact ⟨by simp [hk], appendValues_ok_all ha⟩
        · exact ih h kv2 h1

theorem decodeHeadersFrom_error_shape {m : HeaderMap}
    {hs : List (String × List String)} {ce : ConversionError}
    (h : decodeHeadersFrom m hs = Except.error ce) :
    (∃ k, ce = ConversionError.invalidRequest (.headerName k)) ∨
    (∃ v, ce = ConversionError.invalidRequest (.headerValue v)) := by
  induction hs generalizing m with
  | nil => exact absurd h (by simp [decodeHeadersFrom])
  | cons kv rest ih =>
    obtain ⟨k, vs⟩ := kv
    unfold decodeHeadersFrom at h
    cases hk : parseHeaderName k with
    | none =>
      simp only [hk] at h
      cases h
      exact Or.inl ⟨k, rfl⟩
    | some name =>
      simp only [hk] at h
      cases ha : appendValues m name vs with
      | error e =>
        simp only [ha] at h
        cases h
        obtain ⟨v, _, _, hce⟩ := appendValues_error_shape ha
        exact Or.inr ⟨v, hce⟩
      | ok m3 =>
        simp only [ha] at h
        exact ih h

theorem decodeHeadersFrom_ok_of_all {hs : List (String × List String)}
    (hall : ∀ kv ∈ hs, (parseHeaderName kv.1).isSome = true ∧
      ∀ v ∈ kv.2, isValueString v = true) (m : HeaderMap) :
    ∃ m2, decodeHeadersFrom m hs = Except.ok m2 := by
  induction hs generalizing m with
  | nil => exact ⟨m, rfl⟩
  | cons kv rest ih =>
    obtain ⟨k, vs⟩ := kv
    obtain ⟨hk, hvs⟩ := hall (k, vs) (List.mem_cons_self _ _)
    have hk2 : (parseHeaderName k).isSome = true := hk
    have hvs2 : ∀ v ∈ vs, isValueString v = true := hvs
    obtain ⟨name, hname⟩ := Option.isSome_iff_exists.mp hk2
    obtain ⟨m3, hm3⟩ := appendValues_ok_of_all name hvs2 m
    have hrest : ∀ kv ∈ rest, (parseHeaderName kv.1).isSome = true ∧
        ∀ v ∈ kv.2, isValueString v = true :=
      fun kv hkv => hall kv (List.mem_cons_of_mem _ hkv)
    obtain ⟨m2, hm2⟩ := ih hrest m3
    refine ⟨m2, ?_⟩
    unfold decodeHeadersFrom
    simp only [hname, hm3]
    exact hm2

/-! ### Claim theorems -/

/-- C3: if the handler's initial response is `Err`, the outbound stream the
transport observes has exactly one element, that element is a failure status
carrying the error's description, and the handler's chunk sequence is never
consumed: the observed stream is the same singleton whatever the chunk
sequence would have yielded. -/
theorem c3_initial_error_single_element (e : String)
    (chunks : List (Except String Bytes)) :
    observeStream (callResourceStream (Except.error e) chunks)
      = [Except.error (Status.internal e)] := by
  rfl

/-- C5: for a successfully converted initial response and an all-`Ok` chunk
sequence that the transport fully consumes, the observed outbound stream is
exactly the converted initial response followed by each chunk wrapped in
order, so it has `1 + (number of chunks)` elements with nothing reordered,
batched or dropped; for an empty chunk sequence it is exactly the singleton
converted initial response. -/
theorem c5_success_stream_exact (initial : Except String HttpResponse)
    (w : CallResourceResponse) (bs : List Bytes)
    (h : convertInitialResponse initial = Except.ok w) :
    observeStream (callResourceStream initial (bs.map Except.ok))
        = Except.ok w :: bs.map (fun b => Except.ok (body_to_response b)) ∧
    (observeStream (callResourceStream initial (bs.map Except.ok))).length
        = 1 + bs.length := by
  have hcs : callResourceStream initial (bs.map Except.ok)
      = Except.ok w :: bs.map (fun b => Except.ok (body_to_response b)) := by
    unfold callResourceStream
    rw [h, map_convertChunk_ok]
  rw [hcs, observeStream_cons_ok, observeStream_wrapped]
  refine ⟨rfl, ?_⟩
  simp
  omega

/-- Witness for C5 at a concrete input: initial response with status 200 and
body "h", chunks "1" and "2". -/
theorem c5_success_stream_exact_witness :
    observeStream (callResourceStream (Except.ok ⟨200, [], [104]⟩)
        ([[49], [50]].map Except.ok))
        = Except.ok ⟨200, [], [104]⟩ ::
            [[49], [50]].map (fun b => Except.ok (body_to_response b)) ∧
    (observeStream (callResourceStream (Except.ok ⟨200, [], [104]⟩)
        ([[49], [50]].map Except.ok))).length = 1 + 2 := by
  exact c5_success_stream_exact (Except.ok ⟨200, [], [104]⟩) ⟨200, [], [104]⟩
    [[49], [50]] (by rfl)

/-- C2: if chunk `k` (1-based, i.e. after `k - 1 = pre.length` successful
chunks) is the first `Err` in the handler's sequence, the observed outbound
stream is exactly the converted initial response, the `k - 1` wrapped chunks,
and the failing element mapped to a failure status — `k + 1` elements in all —
and nothing after chunk `k` is ever requested: the observed stream does not
depend on the rest of the sequence. -/
theorem c2_chunk_error_failfast (initial : Except String HttpResponse)
    (w : CallResourceResponse) (pre : List Bytes) (e : String)
    (rest rest2 : List (Except String Bytes))
    (h : convertInitialResponse initial = Except.ok w) :
    observeStream (callResourceStream initial
        (pre.map Except.ok ++ Except.error e :: rest))
      = (Except.ok w :: pre.map (fun b => Except.ok (body_to_response b)))
          ++ [Except.error (Status.internal e)] ∧
    (observeStream (callResourceStream initial
        (pre.map Except.ok ++ Except.error e :: rest))).length
      = (pre.length + 1) + 1 ∧
    observeStream (callResourceStream initial
        (pre.map Except.ok ++ Except.error e :: rest))
      = observeStream (callResourceStream initial
          (pre.map Except.ok ++ Except.error e :: rest2)) := by
  have key : ∀ r : List (Except String Bytes),
      observeStream (callResourceStream initial
          (pre.map Except.ok ++ Except.error e :: r))
        = (Except.ok w :: pre.map (fun b => Except.ok (body_to_response b)))
            ++ [Except.error (Status.internal e)] := by
    intro r
    have hcs : callResourceStream initial
        (pre.map Except.ok ++ Except.error e :: r)
        = Except.ok w :: (pre.map (fun b => Except.ok (body_to_response b))
            ++ (Except.error (Status.internal e) :: r.map convertChunk)) := by
      unfold callResourceStream
      rw [h, List.map_append, map_convertChunk_ok, List.map_cons]
      rfl
    rw [hcs, observeStream_cons_ok, observeStream_wrapped_append,
      observeStream_cons_error]
    rfl
  refine ⟨key rest, ?_, ?_⟩
  · rw [key rest]
    simp
  · rw [key rest, key rest2]

/-- Witness for C2 at a concrete input: one successful chunk then a failing
one, with two different unrequested tails. -/
theorem c2_chunk_error_failfast_witness :
    observeStream (callResourceStream (Except.ok ⟨200, [], []⟩)
        ([[49]].map Except.ok ++ Except.error "boom" :: [Except.ok [50]]))
      = (Except.ok ⟨200, [], []⟩ ::
          [[49]].map (fun b => Except.ok (body_to_response b)))
          ++ [Except.error (Status.internal "boom")] ∧
    (observeStream (callResourceStream (Except.ok ⟨200, [], []⟩)
        ([[49]].map Except.ok ++ Except.error "boom" :: [Except.ok [50]]))).length
      = (1 + 1) + 1 ∧
    observeStream (callResourceStream (Except.ok ⟨200, [], []⟩)
        ([[49]].map Except.ok ++ Except.error "boom" :: [Except.ok [50]]))
      = observeStream (callResourceStream (Except.ok ⟨200, [], []⟩)
          ([[49]].map Except.ok ++ Except.error "boom" :: [])) := by
  have h := c2_chunk_error_failfast (Except.ok ⟨200, [], []⟩) ⟨200, [], []⟩
    [[49]] "boom" [Except.ok [50]] [] (by rfl)
  simpa using h

/-- C7: every chunk emitted after the initial response is wrapped into a wire
message with status code exactly 200, an empty header mapping, and the chunk's
bytes as body; position `i + 1` of the outbound stream (for chunk `i`) is
exactly that wrapped message, so only the initial element (position 0) can
carry the handler's real status and headers. -/
theorem c7_chunk_wire_shape (initial : Except String HttpResponse)
    (chunks : List (Except String Bytes)) (i : Nat) (b : Bytes)
    (h : chunks[i]? = some (Except.ok b)) :
    (callResourceStream initial chunks)[i + 1]? = some (Except.ok (body_to_response b)) ∧
    (body_to_response b).code = 200 ∧
    (body_to_response b).headers = [] ∧
    (body_to_response b).body = b := by
  refine ⟨?_, rfl, rfl, rfl⟩
  simp [callResourceStream, List.getElem?_map, h, convertChunk]

/-- Witness for C7 at a concrete input: the second chunk of a two-chunk
sequence. -/
theorem c7_chunk_wire_shape_witness :
    (callResourceStream (Except.ok ⟨404, [], []⟩)
        [Except.ok [49], Except.ok [50]])[1 + 1]?
      = some (Except.ok (body_to_response [50])) ∧
    (body_to_response [50]).code = 200 ∧
    (body_to_response [50]).headers = [] ∧
    (body_to_response [50]).body = [50] := by
  exact c7_chunk_wire_shape (Except.ok ⟨404, [], []⟩)
    [Except.ok [49], Except.ok [50]] 1 [50] (by rfl)

/-- C4: if the inbound wire message fails conversion to an internal request,
the RPC entry point returns a single failure status to the transport rather
than an outbound stream, and it does so for every possible handler — the
handler is never dispatched. -/
theorem c4_decode_failure_rejects_call {PC IC : Type}
    (ctxConv : PC → Except ConversionError IC) (req : WireRequest PC)
    (ce : ConversionError) (h : tryFromRequest ctxConv req = Except.error ce) :
    ∀ handler : CallResourceRequest IC →
        Except String HttpResponse × List (Except String Bytes),
      call_resource ctxConv handler req = Except.error ce.into_tonic_status := by
  intro handler
  unfold call_resource
  rw [h]

/-- Witness for C4 at a concrete input: an empty method string fails the
request conversion and the call is rejected with the corresponding status. -/
theorem c4_decode_failure_rejects_call_witness :
    call_resource (fun _ : Unit => Except.ok ())
      (fun _ => (Except.ok ⟨200, [], []⟩, []))
      (⟨none, "", "/p", [], []⟩ : WireRequest Unit)
      = Except.error
          (ConversionError.invalidRequest (.method "")).into_tonic_status := by
  exact c4_decode_failure_rejects_call (fun _ : Unit => Except.ok ())
    (⟨none, "", "/p", [], []⟩ : WireRequest Unit)
    (ConversionError.invalidRequest (.method "")) (by rfl)
    (fun _ => (Except.ok ⟨200, [], []⟩, []))

/-- C8: a successful response conversion copies the status code exactly: the
wire message's integer code equals the internal response's status, and since
`http::StatusCode` keeps the status below 1000 the widened value stays far
inside the 16-bit range — no truncation occurs. -/
theorem c8_status_code_widening (r : HttpResponse) (w : CallResourceResponse)
    (hs : r.status < 1000) (h : tryFromResponse r = Except.ok w) :
    w.code = (r.status : Int) ∧ 0 ≤ w.code ∧ w.code < 65536 := by
  unfold tryFromResponse at h
  cases henc : encodeHeaders r.headers with
  | error e => rw [henc] at h; exact absurd h (by simp)
  | ok hs2 =>
    rw [henc] at h
    have hw : w = ⟨(r.status : Int), hs2, r.body⟩ := by
      cases h
      rfl
    subst hw
    refine ⟨rfl, by positivity, ?_⟩
    show (r.status : Int) < 65536
    have : (r.status : Int) < 1000 := by exact_mod_cast hs
    omega

/-- Witness for C8 at a concrete input: a 404 response with one header. -/
theorem c8_status_code_widening_witness :
    (⟨404, [("x-a", ⟨["v"]⟩)], [1]⟩ : CallResourceResponse).code = ((404 : Nat) : Int) ∧
    0 ≤ (⟨404, [("x-a", ⟨["v"]⟩)], [1]⟩ : CallResourceResponse).code ∧
    (⟨404, [("x-a", ⟨["v"]⟩)], [1]⟩ : CallResourceResponse).code < 65536 := by
  exact c8_status_code_widening ⟨404, [("x-a", ["v"])], [1]⟩
    ⟨404, [("x-a", ⟨["v"]⟩)], [1]⟩ (by decide) (by rfl)

/-- C6: if any wire header name or value violates header grammar, the decode
fails with `ConversionError::InvalidRequest` carrying the underlying
grammar-violation cause (an invalid header name or an invalid header value),
the whole request conversion fails the same way, and the handler is never
invoked: the call is rejected with a bare status for every possible handler. -/
theorem c6_invalid_header_rejects {PC IC : Type}
    (ctxConv : PC → Except ConversionError IC) (r : WireRequest PC)
    (hbad : ∃ kv ∈ r.headers,
      parseHeaderName kv.1 = none ∨ ∃ v ∈ kv.2, isValueString v = false) :
    ∃ src : RequestErrorSource,
      ((∃ k, src = RequestErrorSource.headerName k) ∨
        (∃ v, src = RequestErrorSource.headerValue v)) ∧
      decodeHeaders r.headers = Except.error (.invalidRequest src) ∧
      tryFromRequest ctxConv r = Except.error (.invalidRequest src) ∧
      ∀ handler : CallResourceRequest IC →
          Except String HttpResponse × List (Except String Bytes),
        call_resource ctxConv handler r
          = Except.error (ConversionError.invalidRequest src).into_tonic_status := by
  cases hdec : decodeHeaders r.headers with
  | ok m2 =>
    exfalso
    obtain ⟨kv, hkv, hl⟩ := hbad
    have hdec2 : decodeHeadersFrom [] r.headers = Except.ok m2 := hdec
    have hall := decodeHeadersFrom_ok_all hdec2 kv hkv
    rcases hl with hname | ⟨v, hv, hvf⟩
    · rw [hname] at hall
      exact absurd hall.1 (by simp)
    · have hvt := hall.2 v hv
      rw [hvf] at hvt
      exact absurd hvt (by simp)
  | error ce =>
    have hdec2 : decodeHeadersFrom [] r.headers = Except.error ce := hdec
    have hshape := decodeHeadersFrom_error_shape hdec2
    have hreq : tryFromRequest ctxConv r = Except.error ce := by
      unfold tryFromRequest
      simp only [hdec]
    have hcall : ∀ handler : CallResourceRequest IC →
        Except String HttpResponse × List (Except String Bytes),
        call_resource ctxConv handler r = Except.error ce.into_tonic_status := by
      intro handler
      unfold call_resource
      simp only [hreq]
    rcases hshape with ⟨k, hk⟩ | ⟨v, hv⟩
    · refine ⟨RequestErrorSource.headerName k, Or.inl ⟨k, rfl⟩, ?_, ?_, ?_⟩
      · rw [hk]
      · rw [hreq, hk]
      · intro handler
        rw [hcall handler, hk]
    · refine ⟨RequestErrorSource.headerValue v, Or.inr ⟨v, rfl⟩, ?_, ?_, ?_⟩
      · rw [hv]
      · rw [hreq, hv]
      · intro handler
        rw [hcall handler, hv]

/-- Witness for C6 at a concrete input: a header name containing a space. -/
theorem c6_invalid_header_rejects_witness :
    ∃ src : RequestErrorSource,
      ((∃ k, src = RequestErrorSource.headerName k) ∨
        (∃ v, src = RequestErrorSource.headerValue v)) ∧
      decodeHeaders (⟨none, "GET", "/p", [("bad name", ["x"])], []⟩ :
          WireRequest Unit).headers = Except.error (.invalidRequest src) ∧
      tryFromRequest (fun _ : Unit => Except.ok ())
          (⟨none, "GET", "/p", [("bad name", ["x"])], []⟩ : WireRequest Unit)
        = Except.error (.invalidRequest src) ∧
      ∀ handler : CallResourceRequest Unit →
          Except String HttpResponse × List (Except String Bytes),
        call_resource (fun _ : Unit => Except.ok ()) handler
            (⟨none, "GET", "/p", [("bad name", ["x"])], []⟩ : WireRequest Unit)
          = Except.error (ConversionError.invalidRequest src).into_tonic_status := by
  exact c6_invalid_header_rejects (fun _ : Unit => Except.ok ())
    (⟨none, "GET", "/p", [("bad name", ["x"])], []⟩ : WireRequest Unit)
    ⟨("bad name", ["x"]), by simp, Or.inl (by rfl)⟩

/-- C9: a wire message without a plugin-context field, whose headers, method
and URL are all valid, converts successfully and the resulting internal
request has no plugin context — the absence of a plugin context is never
itself a conversion error. -/
theorem c9_absent_context_ok {PC IC : Type}
    (ctxConv : PC → Except ConversionError IC) (r : WireRequest PC)
    (hctx : r.plugin_context = none)
    (hheaders : ∀ kv ∈ r.headers, (parseHeaderName kv.1).isSome = true ∧
      ∀ v ∈ kv.2, isValueString v = true)
    (hmethod : (parseMethod r.method).isSome = true)
    (hurl : (parseUri r.url).isSome = true) :
    ∃ req, tryFromRequest ctxConv r = Except.ok req ∧ req.plugin_context = none := by
  obtain ⟨ms, hmeq⟩ := Option.isSome_iff_exists.mp hmethod
  obtain ⟨us, hueq⟩ := Option.isSome_iff_exists.mp hurl
  obtain ⟨m2, hm2⟩ := decodeHeadersFrom_ok_of_all hheaders []
  have hdec : decodeHeaders r.headers = Except.ok m2 := hm2
  refine ⟨⟨none, ms, us, m2, r.body⟩, ?_, rfl⟩
  unfold tryFromRequest
  simp only [hdec, hctx, hmeq, hueq]

/-- Witness for C9 at a concrete input: a request with one valid header, a
valid method and URL, and no plugin context. -/
theorem c9_absent_context_ok_witness :
    ∃ req, tryFromRequest (fun _ : Unit => Except.ok ())
        (⟨none, "GET", "/p", [("X-A", ["1"])], [104]⟩ : WireRequest Unit)
      = Except.ok req ∧ req.plugin_context = none := by
  exact c9_absent_context_ok (fun _ : Unit => Except.ok ())
    (⟨none, "GET", "/p", [("X-A", ["1"])], [104]⟩ : WireRequest Unit)
    (by rfl) (by decide) (by decide) (by decide)

theorem valuesToStr_error {vs : List String} {ce : ConversionError}
    (h : valuesToStr vs = Except.error ce) : ce = ConversionError.invalidResponse := by
  induction vs with
  | nil => exact absurd h (by simp [valuesToStr])
  | cons v rest ih =>
    unfold valuesToStr at h
    cases hv : headerValueToStr v with
    | none =>
      simp only [hv] at h
      cases h
      rfl
    | some s =>
      simp only [hv] at h
      cases hr : valuesToStr rest with
      | error e =>
        simp only [hr, Except.map] at h
        cases h
        exact ih hr
      | ok ss => simp [hr, Except.map] at h

theorem encodeEntry_error {k : Option String} {vs : List String}
    {ce : ConversionError} (h : encodeEntry k vs = Except.error ce) :
    ce = ConversionError.invalidResponse := by
  cases k with
  | none =>
    unfold encodeEntry at h
    cases h
    rfl
  | some name =>
    unfold encodeEntry at h
    cases hv : valuesToStr vs with
    | error e =>
      simp only [hv] at h
      cases h
      exact valuesToStr_error hv
    | ok ss => simp [hv] at h

theorem encodeGroups_error {gs : List (Option String × List String)}
    {ce : ConversionError} (h : encodeGroups gs = Except.error ce) :
    ce = ConversionError.invalidResponse := by
  induction gs with
  | nil => exact absurd h (by simp [encodeGroups])
  | cons g gs ih =>
    obtain ⟨k, vs⟩ := g
    unfold encodeGroups at h
    cases he : encodeEntry k vs with
    | error e =>
      simp only [he] at h
      cases h
      exact encodeEntry_error he
    | ok entry =>
      simp only [he] at h
      cases hr : encodeGroups gs with
      | error e =>
        simp only [hr, Except.map] at h
        cases h
        exact ih hr
      | ok es => simp [hr, Except.map] at h

theorem encodeGroups_cons (k : Option String) (vs : List String)
    (gs : List (Option String × List String)) :
    encodeGroups ((k, vs) :: gs) =
      match encodeEntry k vs with
      | .error e => .error e
      | .ok entry => (encodeGroups gs).map (fun es => entry :: es) := rfl

theorem encodeGroups_none {gs : List (Option String × List String)}
    (h : ∃ g ∈ gs, g.1 = (none : Option String)) :
    ∃ ce, encodeGroups gs = Except.error ce := by
  induction gs with
  | nil => simp at h
  | cons g gs ih =>
    obtain ⟨k, vs⟩ := g
    obtain ⟨g0, hg0, hnone⟩ := h
    rcases List.mem_cons.mp hg0 with h1 | h1
    · have hk : k = none := by
        rw [h1] at hnone
        exact hnone
      subst hk
      exact ⟨ConversionError.invalidResponse, rfl⟩
    · obtain ⟨ce, hce⟩ := ih ⟨g0, h1, hnone⟩
      rw [encodeGroups_cons]
      cases he : encodeEntry k vs with
      | error e => exact ⟨e, rfl⟩
      | ok entry =>
        refine ⟨ce, ?_⟩
        simp only [hce, Except.map]

theorem groupPairsBy_cons_nil {k : Option String} {v : String}
    {l : List (Option String × String)} (hG : groupPairsBy l = []) :
    groupPairsBy ((k, v) :: l) = [(k, [v])] := by
  unfold groupPairsBy
  rw [hG]

theorem groupPairsBy_cons_eq {k k2 : Option String} {v : String}
    {l : List (Option String × String)} {vs : List String}
    {gs : List (Option String × List String)}
    (hG : groupPairsBy l = (k2, vs) :: gs) (hkk : k = k2) :
    groupPairsBy ((k, v) :: l) = (k, v :: vs) :: gs := by
  unfold groupPairsBy
  rw [hG]
  show (if k = k2 then (k, v :: vs) :: gs else (k, [v]) :: (k2, vs) :: gs)
    = (k, v :: vs) :: gs
  rw [if_pos hkk]

theorem groupPairsBy_cons_ne {k k2 : Option String} {v : String}
    {l : List (Option String × String)} {vs : List String}
    {gs : List (Option String × List String)}
    (hG : groupPairsBy l = (k2, vs) :: gs) (hkk : ¬k = k2) :
    groupPairsBy ((k, v) :: l) = (k, [v]) :: (k2, vs) :: gs := by
  unfold groupPairsBy
  rw [hG]
  show (if k = k2 then (k, v :: vs) :: gs else (k, [v]) :: (k2, vs) :: gs)
    = (k, [v]) :: (k2, vs) :: gs
  rw [if_neg hkk]

theorem groupPairsBy_none {l : List (Option String × String)}
    (h : ∃ p ∈ l, p.1 = (none : Option String)) :
    ∃ g ∈ groupPairsBy l, g.1 = (none : Option String) := by
  induction l with
  | nil => simp at h
  | cons p l ih =>
    obtain ⟨k, v⟩ := p
    obtain ⟨q, hq, hqnone⟩ := h
    rcases List.mem_cons.mp hq with h1 | h1
    · have hk : k = none := by
        rw [h1] at hqnone
        exact hqnone
      subst hk
      cases hG : groupPairsBy l with
      | nil =>
        rw [groupPairsBy_cons_nil hG]
        exact ⟨(none, [v]), by simp, rfl⟩
      | cons g2 gs =>
        obtain ⟨k2, vs⟩ := g2
        by_cases hkk : (none : Option String) = k2
        · rw [groupPairsBy_cons_eq hG hkk]
          exact ⟨(none, v :: vs), by simp, rfl⟩
        · rw [groupPairsBy_cons_ne hG hkk]
          exact ⟨(none, [v]), by simp, rfl⟩
    · obtain ⟨g, hg, hgnone⟩ := ih ⟨q, h1, hqnone⟩
      cases hG : groupPairsBy l with
      | nil => rw [hG] at hg; simp at hg
      | cons g2 gs =>
        obtain ⟨k2, vs⟩ := g2
        rw [hG] at hg
        rcases List.mem_cons.mp hg with h2 | h2
        · have hk2 : k2 = none := by
            rw [h2] at hgnone
            exact hgnone
          subst hk2
          by_cases hkk : k = none
          · rw [groupPairsBy_cons_eq hG hkk]
            exact ⟨(k, v :: vs), by simp, hkk⟩
          · rw [groupPairsBy_cons_ne hG hkk]
            exact ⟨(none, vs), by simp, rfl⟩
        · by_cases hkk : k = k2
          · rw [groupPairsBy_cons_eq hG hkk]
            exact ⟨g, by simp [h2], hgnone⟩
          · rw [groupPairsBy_cons_ne hG hkk]
            exact ⟨g, by simp [h2], hgnone⟩

theorem drainHeaders_none {m : HeaderMap} {k : String} {vs : List String}
    (hkv : (k, vs) ∈ m) (hlen : 2 ≤ vs.length) :
    ∃ v, ((none : Option String), v) ∈ drainHeaders m := by
  match vs, hlen with
  | v1 :: v2 :: rest, _ =>
    refine ⟨v2, ?_⟩
    unfold drainHeaders
    rw [List.mem_flatMap]
    exact ⟨(k, v1 :: v2 :: rest), hkv, by simp⟩

/-- C10: converting an internal response whose header map holds two or more
values for some name fails with `ConversionError::InvalidResponse`: the drain
iterator pairs only the first value of each name with that name, the remaining
values form a group with no name, and the nameless group aborts the encode. -/
theorem c10_multivalue_invalid_response (r : HttpResponse)
    (h : ∃ kv ∈ r.headers, 2 ≤ kv.2.length) :
    tryFromResponse r = Except.error ConversionError.invalidResponse := by
  obtain ⟨⟨k, vs⟩, hkv, hlen⟩ := h
  obtain ⟨v, hvmem⟩ := drainHeaders_none hkv hlen
  obtain ⟨ce, hce⟩ := encodeGroups_none (groupPairsBy_none ⟨(none, v), hvmem, rfl⟩)
  have hcei : ce = ConversionError.invalidResponse := encodeGroups_error hce
  subst hcei
  unfold tryFromResponse encodeHeaders
  simp only [hce]

/-- Witness for C10 at a concrete input: a response with the single header
name `x-two` carrying two values. -/
theorem c10_multivalue_invalid_response_witness :
    tryFromResponse ⟨200, [("x-two", ["a", "b"])], []⟩
      = Except.error ConversionError.invalidResponse := by
  exact c10_multivalue_invalid_response ⟨200, [("x-two", ["a", "b"])], []⟩
    ⟨("x-two", ["a", "b"]), by simp, by simp⟩

/-- C1: the claimed decode-then-encode round trip does NOT hold on the code.
At the concrete wire header map `\x7b "X-Two": ["a", "b"] \x7d` the decode
succeeds and yields the internal multimap with both values under the
(lowercased) name, but encoding that multimap back to the wire fails with
`InvalidResponse` instead of producing one wire key with both values, because
the drain-and-group step pairs only the first value with its name. -/
theorem c1_roundtrip_multivalue_breaks :
    decodeHeaders [("X-Two", ["a", "b"])] = Except.ok [("x-two", ["a", "b"])] ∧
    encodeHeaders [("x-two", ["a", "b"])]
      = Except.error ConversionError.invalidResponse := by
  exact ⟨rfl, rfl⟩

end GrafanaResource
